import Mathlib

/-!
# Shallow embedding of the Wren panel-decomposition engine

This file embeds the `Wren` class (the geometric decomposition engine of the
repository) together with shallow models of its collaborators, and proves the
specification claims about it.

Conventions of the embedding:
* coordinates and scalar quantities are rationals (`ℚ`); the only places the
  source produces irrational numbers (Euclidean `distance`, `angle` in radians,
  `rotateAroundPoint`) are external collaborator functions that the engine
  treats as opaque, so they are fields of an abstract `Geom` bundle below;
* the external clipper `offset`, the point utilities, and the `Block` /
  `Corner` / `Wall` boundary-point accessors (whose implementation files are
  not part of the engine source) are likewise abstract fields of `Geom`;
* JavaScript out-of-range array reads (which yield `undefined`) are modelled
  with `Option`/`List.get?`; the one place where a subsequent property access
  on such an `undefined` value would throw a `TypeError`
  (`this.lines[i].angle` in `calculateWalls`) is modelled by an
  `Option`-valued computation that returns `none` there.
-/

namespace Schematic

/-- A 2D point `[x, y]`, as in the source's `Point` tuples. -/
abbrev Point := ℚ × ℚ

/-- Default point used to model in-range JavaScript array reads via `getD`
(only ever used at indices proved to be in range). -/
def dPoint : Point := (0, 0)

/-- Source: `const pointDistance = 15`. -/
def pointDistance : ℚ := 15

/-- Source: `const finWidth = 12.5`. -/
def finWidth : ℚ := 25 / 2

/-- `Block`, identified by its constructor arguments as used by
`Wren.calculateLines`: `new Block(lineAngle, subPoints[i], innerSubPoints[i],
innerSubPoints[i+1], outerSubPoints[i+1], outerSubPoints[i])`.  The class body
is not part of the engine source; its boundary-point accessors are abstract
fields of `Geom`. -/
structure Block where
  angle : ℚ
  subPoint : Point
  innerA : Point
  innerB : Point
  outerB : Point
  outerA : Point
deriving DecidableEq

/-- `Corner`, identified by its six constructor arguments as used by
`Wren.calculateCorners`.  The arguments are JavaScript array reads that may be
`undefined` (e.g. `outerSubPoints[length - 1]` on an empty list), hence
`Option Point`. -/
structure Corner where
  lastOuterPrev : Option Point
  outerVertex : Option Point
  firstOuterNext : Option Point
  firstInnerNext : Option Point
  innerVertex : Option Point
  lastInnerPrev : Option Point
deriving DecidableEq

/-- `Wall`, identified by its constructor arguments as used by
`Wren.calculateWalls`: `new Wall(distance, points[i], this.lines[i].angle,
[points[i], points[index(i+1)]])`. -/
structure Wall where
  dist : ℚ
  point : Point
  angle : ℚ
  segA : Point
  segB : Point
deriving DecidableEq

/-- The fields of the source's `bounds(points)` record that the engine reads
(`minX` and `maxY`). -/
structure Bounds where
  minX : ℚ
  maxY : ℚ
deriving DecidableEq

/-- A tile contributing to a reinforcer loop: either a `Block` or a `Corner`
(the source mixes both in one array in `calculateReinforcers`). -/
inductive Tile where
  | block : Block → Tile
  | corner : Corner → Tile
deriving DecidableEq

/-- The external collaborators of the engine, abstract.
`distance`, `pointOnLine`, `angle`, `rotateAroundPoint`, `bounds` are the point
utilities; `offset` is the clipper offsetter
(`offset(points, {DELTA: d})`); the remaining fields are the boundary-point
accessors of `Block`, `Corner` and `Wall`.

Modelled from the spec: the point utilities, the offsetter, and the `Block` /
`Corner` / `Wall` class bodies are not in the engine source; the spec describes
them only by contract (pure functions; offsetter need not preserve point
count), so they are opaque parameters here. -/
structure Geom where
  distance : Point → Point → ℚ
  pointOnLine : ℚ → Point → Point → Point
  angle : Point → Point → ℚ
  rotateAroundPoint : Point → ℚ → Point → Point
  bounds : List Point → Bounds
  offset : List Point → ℚ → List Point
  blockOuterPoints : Block → List Point
  blockInnerPoints : Block → List Point
  cornerOuterPoints : Corner → List Point
  cornerInnerPoints : Corner → List Point
  wallPoints : Wall → List Point

/-- The per-edge record built by `calculateLines` (source interface `Line`). -/
structure Line where
  subPoints : List Point
  outerSubPoints : List Point
  innerSubPoints : List Point
  angle : ℚ
  length : ℚ
  blocks : List Block
  corner : Option Corner
deriving DecidableEq

/-- Default line used to model in-range JavaScript array reads via `getD`
(only ever used at indices proved to be in range). -/
def dLine : Line :=
  { subPoints := [], outerSubPoints := [], innerSubPoints := [],
    angle := 0, length := 0, blocks := [], corner := none }

/-- Modelled from the spec: `safeIndex` from `utils/list`, "a cyclic-safe index
function mapping any integer to a valid in-range index (`i mod n`, always
non-negative)".  The engine only ever applies it to non-negative arguments, so
it is modelled on `ℕ`. -/
def safeIndex (n i : ℕ) : ℕ := i % n

/-- Modelled from the spec: `loopifyInPairs` from `utils/list`, "cyclic pairing
of a sequence" — consecutive pairs, the last point paired with the first. -/
def loopifyInPairs (l : List Point) : List (Point × Point) :=
  l.zip (l.rotate 1)

/-- The sub-point parameter loop of `calculateLines`:
`for (i = pointDistance; i < halfLength; i += pointDistance * 2)`.
Both halves of an edge run this identical loop; it returns the list of
successive values of `i` (each is the distance of the generated sub-point from
the end of the edge the loop starts at). -/
def subParams (i half : ℚ) : List ℚ :=
  if i < half then i :: subParams (i + pointDistance * 2) half else []
termination_by (⌈(half - i) / (pointDistance * 2)⌉).toNat
decreasing_by
  have hpd : (0 : ℚ) < pointDistance * 2 := by norm_num [pointDistance]
  have hq : (half - (i + pointDistance * 2)) / (pointDistance * 2)
      = (half - i) / (pointDistance * 2) - 1 := by
    field_simp
    ring
  have hpos : (0 : ℚ) < (half - i) / (pointDistance * 2) :=
    div_pos (by linarith) hpd
  have hone : (1 : ℤ) ≤ ⌈(half - i) / (pointDistance * 2)⌉ := by
    exact_mod_cast Int.ceil_pos.mpr hpos
  have hceil : ⌈(half - (i + pointDistance * 2)) / (pointDistance * 2)⌉
      = ⌈(half - i) / (pointDistance * 2)⌉ - 1 := by
    rw [hq]
    exact_mod_cast Int.ceil_sub_int ((half - i) / (pointDistance * 2)) 1
  rw [hceil]
  omega

/-- One iteration of `calculateLines`'s `loopifyInPairs(_points).map(...)`
callback: builds the `Line` record for the edge from `start` to `end`
(`endP` here, since `end` is a reserved word). -/
def mkLine (g : Geom) (pr : Point × Point) : Line :=
  let start := pr.1
  let endP := pr.2
  let lineAngle := g.angle start endP
  let length := g.distance start endP
  let halfLength := length / 2
  -- 1. the main sub-points: outwards from start, then inwards from end,
  -- the second list reversed and appended
  let firstPoints := (subParams pointDistance halfLength).map
    (fun i => g.pointOnLine i start endP)
  let lastPoints := (subParams pointDistance halfLength).map
    (fun i => g.pointOnLine i endP start)
  let subPoints := firstPoints ++ lastPoints.reverse
  -- 2. the inner & outer sub-points
  let innerSubPoints := subPoints.map
    (fun p => g.rotateAroundPoint p lineAngle (p.1, p.2 + finWidth))
  let outerSubPoints := subPoints.map
    (fun p => g.rotateAroundPoint p lineAngle (p.1, p.2 - finWidth))
  -- 3. the blocks, one per consecutive pair of sub-point indices
  let blocks := (List.range (subPoints.length - 1)).map (fun i =>
    { angle := lineAngle,
      subPoint := subPoints.getD i dPoint,
      innerA := innerSubPoints.getD i dPoint,
      innerB := innerSubPoints.getD (i + 1) dPoint,
      outerB := outerSubPoints.getD (i + 1) dPoint,
      outerA := outerSubPoints.getD i dPoint : Block })
  { angle := lineAngle, length := length, subPoints := subPoints,
    outerSubPoints := outerSubPoints, innerSubPoints := innerSubPoints,
    blocks := blocks, corner := none }

/-- `Wren.calculateLines`: one `Line` per cyclic pair of polygon points. -/
def calculateLines (g : Geom) (pts : List Point) : List Line :=
  (loopifyInPairs pts).map (mkLine g)

/-- The `Corner` built in iteration `i` of `calculateCorners`, from the
previous line (`lines[i]`), the next line (`lines[nextI]`) and the offset
polygons.  JavaScript reads `arr[k]` that may be out of range are `get?`. -/
def mkCorner (outerPts innerPts : List Point)
    (prevLine nextLine : Line) (nextI : ℕ) : Corner :=
  { lastOuterPrev :=
      prevLine.outerSubPoints.get? (prevLine.outerSubPoints.length - 1),
    outerVertex := outerPts.get? nextI,
    firstOuterNext := nextLine.outerSubPoints.get? 0,
    firstInnerNext := nextLine.innerSubPoints.get? 0,
    innerVertex := innerPts.get? nextI,
    lastInnerPrev :=
      prevLine.innerSubPoints.get? (prevLine.outerSubPoints.length - 1) }

/-- `Wren.calculateCorners`: for each `i`, set `lines[i].corner` to the corner
built from `lines[i]` and `lines[(i+1) % n]`.  The loop only writes the
`corner` field, which it never reads, so it is a pure map over the indices. -/
def calculateCorners (outerPts innerPts : List Point)
    (lines : List Line) : List Line :=
  (List.range lines.length).map (fun i =>
    let nextI := safeIndex lines.length (i + 1)
    let prevLine := lines.getD i dLine
    let nextLine := lines.getD nextI dLine
    { prevLine with
        corner := some (mkCorner outerPts innerPts prevLine nextLine nextI) })

/-- The outer boundary points of a tile (`geometry.outerPoints` in the
source's `flatMap`). -/
def tileOuter (g : Geom) : Tile → List Point
  | .block b => g.blockOuterPoints b
  | .corner c => g.cornerOuterPoints c

/-- The inner boundary points of a tile (`geometry.innerPoints`). -/
def tileInner (g : Geom) : Tile → List Point
  | .block b => g.blockInnerPoints b
  | .corner c => g.cornerInnerPoints c

/-- The tile seen at `prevLine.corner` in `calculateReinforcers`.  After
`calculateCorners` every line's `corner` is `some` (lemma
`calculateCorners_corner_isSome` below), so the `none` branch is unreachable;
in the source an absent corner (`undefined`) would throw on `.outerPoints`. -/
def cornerTile (line : Line) : List Tile :=
  match line.corner with
  | some c => [Tile.corner c]
  | none => []

/-- The tile group of iteration `i` of `calculateReinforcers`:
`[...prevLine.blocks.slice(-2), prevLine.corner, ...nextLine.blocks.slice(0, 2)]`.
`slice(-2)` is the last (at most) two elements, `slice(0, 2)` the first two. -/
def reinforcerTiles (lines : List Line) (i : ℕ) : List Tile :=
  let nextI := safeIndex lines.length (i + 1)
  let prevLine := lines.getD i dLine
  let nextLine := lines.getD nextI dLine
  (prevLine.blocks.drop (prevLine.blocks.length - 2)).map Tile.block
    ++ cornerTile prevLine
    ++ (nextLine.blocks.take 2).map Tile.block

/-- `Wren.calculateReinforcers`: per index, the flattened outer points of the
tile group in group order, then the flattened inner points of the reversed
group (`blocks.reverse()` there reverses a fresh local array). -/
def calculateReinforcers (g : Geom) (lines : List Line) : List (List Point) :=
  (List.range lines.length).map (fun i =>
    let tiles := reinforcerTiles lines i
    tiles.flatMap (tileOuter g) ++ tiles.reverse.flatMap (tileInner g))

/-- `Wren.calculateFinPieces`.  `const blocks = this.lines[i].blocks` is a
reference, and `blocks.reverse()` reverses that array in place, so the step
both produces the fin-piece loops (outer points in original block order, inner
points in reversed order — the first `flatMap` runs before the `reverse()`)
and leaves every line's `blocks` array reversed.  The pair returned is
(fin pieces, updated lines). -/
def calculateFinPieces (g : Geom) (lines : List Line) :
    List (List Point) × List Line :=
  (lines.map (fun l =>
      l.blocks.flatMap g.blockOuterPoints
        ++ l.blocks.reverse.flatMap g.blockInnerPoints),
   lines.map (fun l => { l with blocks := l.blocks.reverse }))

/-- The loop body chain of `calculateWalls` over a list of indices.  Reading
`this.lines[i]` out of range yields `undefined` and the subsequent `.angle`
access throws, modelled by `none`. -/
def wallsAux (g : Geom) (lines : List Line) (pts : List Point) (d : ℚ) :
    List ℕ → Option (List (List Point))
  | [] => some []
  | i :: rest =>
    match lines.get? i with
    | none => none
    | some line =>
      (wallsAux g lines pts d rest).map (fun ws =>
        g.wallPoints
          { dist := d,
            point := pts.getD i dPoint,
            angle := line.angle,
            segA := pts.getD i dPoint,
            segB := pts.getD (safeIndex pts.length (i + 1)) dPoint } :: ws)

/-- `Wren.calculateWalls(name, points, distance)`: one wall per index of the
offset-point sequence `pts`, each reading `this.lines[i].angle`. -/
def calculateWalls (g : Geom) (lines : List Line) (pts : List Point) (d : ℚ) :
    Option (List (List Point)) :=
  wallsAux g lines pts d (List.range pts.length)

/-- The fields of a fully constructed `Wren`. -/
structure Wren where
  innerPoints : List Point
  outerPoints : List Point
  points : List Point
  normalizedPoints : List Point
  lines : List Line
  reinforcers : List (List Point)
  finPieces : List (List Point)
  outerWalls : List (List Point)
  innerWalls : List (List Point)
deriving DecidableEq

/-- The `Wren` constructor, step for step.  `none` models the `TypeError`
thrown inside `calculateWalls` when an offset polygon has more points than
there are lines. -/
def mkWren (g : Geom) (rawPoints : List Point) : Option Wren :=
  -- offset with 0 to normalize direction of points
  let points := g.offset rawPoints 0
  -- NB the source computes `bounds(points)` on the raw constructor argument
  let pointBounds := g.bounds rawPoints
  let normalizedPoints := points.map (fun p =>
    (p.1 - pointBounds.minX, pointBounds.maxY - p.2))
  let outerPoints := g.offset rawPoints finWidth
  let innerPoints := g.offset rawPoints (-finWidth)
  let lines0 := calculateLines g points
  let lines1 := calculateCorners outerPoints innerPoints lines0
  let reinforcers := calculateReinforcers g lines1
  let finPair := calculateFinPieces g lines1
  let finPieces := finPair.1
  let lines2 := finPair.2
  (calculateWalls g lines2 innerPoints (-120)).bind (fun innerWalls =>
    (calculateWalls g lines2 outerPoints 120).map (fun outerWalls =>
      { innerPoints := innerPoints, outerPoints := outerPoints,
        points := points, normalizedPoints := normalizedPoints,
        lines := lines2, reinforcers := reinforcers, finPieces := finPieces,
        outerWalls := outerWalls, innerWalls := innerWalls }))

/-! ## Concrete collaborator bundles for evaluation -/

/-- Taxicab distance: a computable stand-in for the Euclidean `distance`
utility; the two agree exactly on axis-aligned segments, which are the only
segments the concrete scenarios below measure. -/
def taxiDistance (a b : Point) : ℚ := |b.1 - a.1| + |b.2 - a.2|

/-- The point at distance `t` from `a` toward `b`, with distance measured by
`taxiDistance`; agrees with the source's Euclidean `pointOnLine` on
axis-aligned segments. -/
def taxiPointOnLine (t : ℚ) (a b : Point) : Point :=
  let L := taxiDistance a b
  if L = 0 then a
  else (a.1 + t * (b.1 - a.1) / L, a.2 + t * (b.2 - a.2) / L)

/-- Bounding box of a point list by folding `min`/`max` (the fields of the
`bounds` utility that the engine reads). -/
def listBounds : List Point → Bounds
  | [] => { minX := 0, maxY := 0 }
  | p :: rest =>
    { minX := rest.foldl (fun m q => min m q.1) p.1,
      maxY := rest.foldl (fun m q => max m q.2) p.2 }

/-- A concrete collaborator bundle for evaluating the engine on axis-aligned
polygons: identity offsetter (point counts preserved), taxicab metric
(Euclidean on axis-aligned segments), angle stand-in `0` with the matching
identity rotation, and simple boundary-point accessors for the tiles. -/
def gSq : Geom where
  distance := taxiDistance
  pointOnLine := taxiPointOnLine
  angle := fun _ _ => 0
  rotateAroundPoint := fun _ _ p => p
  bounds := listBounds
  offset := fun pts _ => pts
  blockOuterPoints := fun b => [b.outerA, b.outerB]
  blockInnerPoints := fun b => [b.innerA, b.innerB]
  cornerOuterPoints := fun c =>
    [c.lastOuterPrev.getD dPoint, c.outerVertex.getD dPoint,
     c.firstOuterNext.getD dPoint]
  cornerInnerPoints := fun c =>
    [c.firstInnerNext.getD dPoint, c.innerVertex.getD dPoint,
     c.lastInnerPrev.getD dPoint]
  wallPoints := fun w => [w.segA, w.segB, w.point]

/-- The square polygon of the spec's concrete scenario. -/
def square : List Point := [(0, 0), (100, 0), (100, 100), (0, 100)]

/-- A collaborator bundle whose zero-delta offset translates the polygon by
`(5, 7)` — allowed by the offsetter's contract, which promises only a valid
closed polygon — used to separate the raw polygon's bounding box from the
working polygon's. -/
def gShift : Geom :=
  { gSq with
      offset := fun pts d =>
        if d = 0 then pts.map (fun p => (p.1 + 5, p.2 + 7)) else pts }

/-! ## Helper lemmas -/

/-- Every parameter generated by the sub-point loop stays strictly below the
loop's upper bound (half the edge length). -/
theorem subParams_mem_lt (i half : ℚ) : ∀ t ∈ subParams i half, t < half := by
  induction i, half using subParams.induct with
  | case1 i half hlt ih =>
    intro t ht
    rw [subParams, if_pos hlt] at ht
    rcases List.mem_cons.mp ht with h | h
    · exact h ▸ hlt
    · exact ih t h
  | case2 i half hlt =>
    intro t ht
    rw [subParams, if_neg hlt] at ht
    exact absurd ht (List.not_mem_nil t)

/-- If the loop's start value already reaches the bound, no parameters are
generated. -/
theorem subParams_nil (i half : ℚ) (h : ¬ i < half) : subParams i half = [] := by
  rw [subParams, if_neg h]

/-- Evaluation of the loop for a half-length of `50` (edges of length `100`):
two iterations, at `15` and `45`. -/
theorem subParams_50 : subParams pointDistance 50 = [15, 45] := by
  rw [subParams, if_pos (by norm_num [pointDistance])]
  rw [show pointDistance + pointDistance * 2 = 45 by norm_num [pointDistance],
    subParams, if_pos (by norm_num)]
  rw [show (45 : ℚ) + pointDistance * 2 = 75 by norm_num [pointDistance],
    subParams, if_neg (by norm_num), pointDistance]

theorem calculateLines_length (g : Geom) (pts : List Point) :
    (calculateLines g pts).length = pts.length := by
  simp [calculateLines, loopifyInPairs]

theorem calculateCorners_length (outerPts innerPts : List Point)
    (lines : List Line) :
    (calculateCorners outerPts innerPts lines).length = lines.length := by
  simp [calculateCorners]

theorem calculateFinPieces_snd_length (g : Geom) (lines : List Line) :
    ((calculateFinPieces g lines).2).length = lines.length := by
  simp [calculateFinPieces]

/-- `wallsAux` succeeds exactly when every visited index is a valid line
index. -/
theorem wallsAux_isSome_iff (g : Geom) (lines : List Line) (pts : List Point)
    (d : ℚ) (idxs : List ℕ) :
    (wallsAux g lines pts d idxs).isSome ↔ ∀ i ∈ idxs, i < lines.length := by
  induction idxs with
  | nil => simp [wallsAux]
  | cons i rest ih =>
    rw [wallsAux]
    rcases h : lines.get? i with _ | line
    · simp only [Option.isSome_none, Bool.false_eq_true, false_iff]
      intro hall
      exact absurd (List.get?_eq_none.mp h) (not_le.mpr (hall i (by simp)))
    · have hi : i < lines.length := by
        by_contra hnot
        rw [List.get?_eq_none.mpr (not_lt.mp hnot)] at h
        exact Option.noConfusion h
      simp [Option.isSome_map, ih, hi]

/-- `calculateWalls` succeeds exactly when the offset-point sequence has at
most as many points as there are lines. -/
theorem calculateWalls_isSome_iff (g : Geom) (lines : List Line)
    (pts : List Point) (d : ℚ) :
    (calculateWalls g lines pts d).isSome ↔ pts.length ≤ lines.length := by
  rw [calculateWalls, wallsAux_isSome_iff]
  constructor
  · intro hall
    rcases Nat.eq_zero_or_pos pts.length with h0 | hpos
    · omega
    · have := hall (pts.length - 1) (List.mem_range.mpr (by omega))
      omega
  · intro hle i hi
    exact lt_of_lt_of_le (List.mem_range.mp hi) hle

/-- When `wallsAux` succeeds it produces one wall per index. -/
theorem wallsAux_length (g : Geom) (lines : List Line) (pts : List Point)
    (d : ℚ) (idxs : List ℕ) (ws : List (List Point))
    (h : wallsAux g lines pts d idxs = some ws) : ws.length = idxs.length := by
  induction idxs generalizing ws with
  | nil => simp [wallsAux] at h; simp [← h]
  | cons i rest ih =>
    rw [wallsAux] at h
    rcases hl : lines.get? i with _ | line
    · rw [hl] at h; exact Option.noConfusion h
    · rw [hl] at h
      rcases hr : wallsAux g lines pts d rest with _ | ws'
      · rw [hr] at h; exact Option.noConfusion h
      · rw [hr] at h
        simp only [Option.map_some'] at h
        have hw := Option.some.inj h
        simp [← hw, ih ws' hr]

/-- The line list after `calculateLines` and `calculateCorners` (the state of
`this.lines` when `calculateReinforcers` runs). -/
def wrenLines1 (g : Geom) (raw : List Point) : List Line :=
  calculateCorners (g.offset raw finWidth) (g.offset raw (-finWidth))
    (calculateLines g (g.offset raw 0))

/-- The line list after `calculateFinPieces` has reversed every `blocks`
array (the final state of `this.lines`). -/
def wrenLines2 (g : Geom) (raw : List Point) : List Line :=
  (calculateFinPieces g (wrenLines1 g raw)).2

/-- Eliminating a successful `Wren` construction into its pipeline stages. -/
theorem mkWren_some_spec (g : Geom) (raw : List Point) (w : Wren)
    (h : mkWren g raw = some w) :
    ∃ iw ow,
      calculateWalls g (wrenLines2 g raw) (g.offset raw (-finWidth)) (-120)
          = some iw ∧
      calculateWalls g (wrenLines2 g raw) (g.offset raw finWidth) 120
          = some ow ∧
      w = { innerPoints := g.offset raw (-finWidth),
            outerPoints := g.offset raw finWidth,
            points := g.offset raw 0,
            normalizedPoints := (g.offset raw 0).map (fun p =>
              (p.1 - (g.bounds raw).minX, (g.bounds raw).maxY - p.2)),
            lines := wrenLines2 g raw,
            reinforcers := calculateReinforcers g (wrenLines1 g raw),
            finPieces := (calculateFinPieces g (wrenLines1 g raw)).1,
            outerWalls := ow, innerWalls := iw } := by
  simp only [mkWren] at h
  rcases hA : calculateWalls g (wrenLines2 g raw) (g.offset raw (-finWidth))
      (-120) with _ | iw
  · simp only [wrenLines2, wrenLines1] at hA
    rw [hA] at h
    exact Option.noConfusion h
  · simp only [wrenLines2, wrenLines1] at hA
    rw [hA] at h
    rcases hB : calculateWalls g (wrenLines2 g raw) (g.offset raw finWidth)
        120 with _ | ow
    · simp only [wrenLines2, wrenLines1] at hB
      rw [hB] at h
      exact Option.noConfusion h
    · simp only [wrenLines2, wrenLines1] at hB
      rw [hB] at h
      simp only [Option.bind_some, Option.map_some'] at h
      refine ⟨iw, ow, by simp [wrenLines2, wrenLines1, hA], by
        simp [wrenLines2, wrenLines1, hB], ?_⟩
      simp only [wrenLines2, wrenLines1]
      exact (Option.some.inj h).symm

/-- `calculateLines` at an index. -/
theorem calculateLines_get? (g : Geom) (pts : List Point) (i : ℕ) :
    (calculateLines g pts).get? i = ((loopifyInPairs pts).get? i).map (mkLine g) := by
  simp [calculateLines]

/-- `calculateCorners` at an index: the original line with its corner set. -/
theorem calculateCorners_get? (outerPts innerPts : List Point)
    (lines : List Line) (i : ℕ) (h : i < lines.length) :
    (calculateCorners outerPts innerPts lines).get? i =
      some { lines.getD i dLine with
               corner := some (mkCorner outerPts innerPts
                 (lines.getD i dLine)
                 (lines.getD (safeIndex lines.length (i + 1)) dLine)
                 (safeIndex lines.length (i + 1))) } := by
  simp [calculateCorners, h]

/-- `calculateReinforcers` at an index. -/
theorem calculateReinforcers_get? (g : Geom) (lines : List Line) (i : ℕ)
    (h : i < lines.length) :
    (calculateReinforcers g lines).get? i =
      some ((reinforcerTiles lines i).flatMap (tileOuter g)
        ++ (reinforcerTiles lines i).reverse.flatMap (tileInner g)) := by
  simp [calculateReinforcers, h]

/-- The final lines at an index: blocks reversed, all else unchanged. -/
theorem calculateFinPieces_snd_get? (g : Geom) (lines : List Line) (i : ℕ) :
    ((calculateFinPieces g lines).2).get? i =
      (lines.get? i).map (fun l => { l with blocks := l.blocks.reverse }) := by
  simp [calculateFinPieces]

/-- Per-line length facts of `calculateLines` output. -/
theorem mkLine_lengths (g : Geom) (pr : Point × Point) :
    (mkLine g pr).innerSubPoints.length = (mkLine g pr).subPoints.length ∧
    (mkLine g pr).outerSubPoints.length = (mkLine g pr).subPoints.length ∧
    (mkLine g pr).blocks.length = (mkLine g pr).subPoints.length - 1 := by
  simp [mkLine]

/-- The sub-point count of a line is twice the parameter-loop count. -/
theorem mkLine_subPoints_length (g : Geom) (pr : Point × Point) :
    (mkLine g pr).subPoints.length
      = 2 * (subParams pointDistance (g.distance pr.1 pr.2 / 2)).length := by
  simp [mkLine]
  ring

/-- Mapping a function over indexed `getD` reads is mapping over the list. -/
theorem range_map_getD {α β : Type} (l : List α) (d : α) (f : α → β) :
    (List.range l.length).map (fun i => f (l.getD i d)) = l.map f := by
  apply List.ext_get?
  intro i
  rcases Nat.lt_or_ge i l.length with h | h
  · rw [List.get?_eq_getElem?, List.get?_eq_getElem?]
    simp [h, List.getD_eq_getElem?_getD, List.getElem?_eq_getElem h]
  · rw [List.get?_eq_getElem?, List.get?_eq_getElem?]
    simp [List.getElem?_eq_none (by simpa using h : l.length ≤ i),
      List.getElem?_eq_none (by simpa using h : (List.range l.length).length ≤ i)]

/-- An option that is `some` equals `some` of its `getD`. -/
theorem option_eq_some_getD {α : Type} (o : Option α) (d : α)
    (h : o.isSome) : o = some (o.getD d) := by
  cases o with
  | none => simp at h
  | some a => rfl

theorem wrenLines1_length (g : Geom) (raw : List Point) :
    (wrenLines1 g raw).length = (g.offset raw 0).length := by
  rw [wrenLines1, calculateCorners_length, calculateLines_length]

theorem wrenLines2_length (g : Geom) (raw : List Point) :
    (wrenLines2 g raw).length = (g.offset raw 0).length := by
  rw [wrenLines2, calculateFinPieces_snd_length, wrenLines1_length]

/-- Constructing a successful `Wren` from successful wall computations. -/
theorem mkWren_eq_some (g : Geom) (raw : List Point)
    (iw ow : List (List Point))
    (hA : calculateWalls g (wrenLines2 g raw) (g.offset raw (-finWidth)) (-120)
        = some iw)
    (hB : calculateWalls g (wrenLines2 g raw) (g.offset raw finWidth) 120
        = some ow) :
    mkWren g raw =
      some { innerPoints := g.offset raw (-finWidth),
             outerPoints := g.offset raw finWidth,
             points := g.offset raw 0,
             normalizedPoints := (g.offset raw 0).map (fun p =>
               (p.1 - (g.bounds raw).minX, (g.bounds raw).maxY - p.2)),
             lines := wrenLines2 g raw,
             reinforcers := calculateReinforcers g (wrenLines1 g raw),
             finPieces := (calculateFinPieces g (wrenLines1 g raw)).1,
             outerWalls := ow, innerWalls := iw } := by
  simp only [wrenLines2, wrenLines1] at hA hB ⊢
  simp only [mkWren, hA, hB, Option.bind_some, Option.map_some']
  rfl

/-- A `Wren` construction succeeds exactly when both offset polygons have at
most as many points as the working polygon. -/
theorem mkWren_isSome_iff (g : Geom) (raw : List Point) :
    (mkWren g raw).isSome ↔
      (g.offset raw (-finWidth)).length ≤ (g.offset raw 0).length ∧
      (g.offset raw finWidth).length ≤ (g.offset raw 0).length := by
  constructor
  · intro hs
    obtain ⟨w, hw⟩ := Option.isSome_iff_exists.mp hs
    obtain ⟨iw, ow, hA, hB, _⟩ := mkWren_some_spec g raw w hw
    constructor
    · have := (calculateWalls_isSome_iff g (wrenLines2 g raw)
        (g.offset raw (-finWidth)) (-120)).mp (by rw [hA]; rfl)
      rwa [wrenLines2_length] at this
    · have := (calculateWalls_isSome_iff g (wrenLines2 g raw)
        (g.offset raw finWidth) 120).mp (by rw [hB]; rfl)
      rwa [wrenLines2_length] at this
  · rintro ⟨h1, h2⟩
    have hA := (calculateWalls_isSome_iff g (wrenLines2 g raw)
      (g.offset raw (-finWidth)) (-120)).mpr (by rw [wrenLines2_length]; exact h1)
    have hB := (calculateWalls_isSome_iff g (wrenLines2 g raw)
      (g.offset raw finWidth) 120).mpr (by rw [wrenLines2_length]; exact h2)
    obtain ⟨iw, hiw⟩ := Option.isSome_iff_exists.mp hA
    obtain ⟨ow, how⟩ := Option.isSome_iff_exists.mp hB
    rw [mkWren_eq_some g raw iw ow hiw how]
    rfl

/-- Every line after corner construction carries a corner. -/
theorem wrenLines1_corner_isSome (g : Geom) (raw : List Point) :
    ∀ l ∈ wrenLines1 g raw, l.corner.isSome := by
  intro l hl
  rw [wrenLines1, calculateCorners] at hl
  obtain ⟨i, _, rfl⟩ := List.mem_map.mp hl
  rfl

/-- Default `Wren` used only to extract the value of a construction proved
successful. -/
def dWren : Wren :=
  { innerPoints := [], outerPoints := [], points := [], normalizedPoints := [],
    lines := [], reinforcers := [], finPieces := [], outerWalls := [],
    innerWalls := [] }

/-- The `Wren` built from the spec's square scenario with the concrete
collaborator bundle `gSq`. -/
def wSq : Wren := (mkWren gSq square).getD dWren

theorem mkWren_gSq : mkWren gSq square = some wSq :=
  option_eq_some_getD _ _ ((mkWren_isSome_iff gSq square).mpr (by decide))

/-- The `Wren` built from the square with the translating offsetter. -/
def wShift : Wren := (mkWren gShift square).getD dWren

theorem gShift_offset_ne (pts : List Point) (d : ℚ) (h : d ≠ 0) :
    gShift.offset pts d = pts := by
  simp [gShift, h]

theorem gShift_offset_zero (pts : List Point) :
    gShift.offset pts 0 = pts.map (fun p => (p.1 + 5, p.2 + 7)) := by
  simp [gShift]

theorem mkWren_gShift : mkWren gShift square = some wShift :=
  option_eq_some_getD _ _ ((mkWren_isSome_iff gShift square).mpr (by
    rw [gShift_offset_zero, gShift_offset_ne _ _ (by norm_num [finWidth]),
      gShift_offset_ne _ _ (by norm_num [finWidth])]
    simp))

theorem wSq_lines_length : wSq.lines.length = 4 := by
  obtain ⟨iw, ow, _, _, hw⟩ := mkWren_some_spec gSq square wSq mkWren_gSq
  rw [hw]
  show (wrenLines2 gSq square).length = 4
  rw [wrenLines2_length]
  rfl

/-! ## Claims -/

/-- C6: for every input polygon, the working polygon stored in `Wren.points`
is the offsetter applied to the raw input with delta 0, while the outer and
inner offset polygons are the offsetter applied to the original raw input
with delta `+finWidth` and `-finWidth` respectively. -/
theorem C6_offset_sources (g : Geom) (raw : List Point) (w : Wren)
    (h : mkWren g raw = some w) :
    w.points = g.offset raw 0 ∧
    w.outerPoints = g.offset raw finWidth ∧
    w.innerPoints = g.offset raw (-finWidth) := by
  obtain ⟨iw, ow, _, _, rfl⟩ := mkWren_some_spec g raw w h
  exact ⟨rfl, rfl, rfl⟩

/-- Witness for C6 at the square scenario. -/
theorem C6_offset_sources_witness :
    wSq.points = gSq.offset square 0 ∧
    wSq.outerPoints = gSq.offset square finWidth ∧
    wSq.innerPoints = gSq.offset square (-finWidth) :=
  C6_offset_sources gSq square wSq mkWren_gSq

/-- C7 (amended): each normalized display point is the working point
translated so that the *raw input* polygon's bounding-box minimum X maps to 0
and flipped against the raw input polygon's bounding-box maximum Y — the
source computes `bounds(points)` on the raw constructor argument, not on the
zero-delta-offset working polygon. -/
theorem C7_normalized_amended (g : Geom) (raw : List Point) (w : Wren)
    (h : mkWren g raw = some w) :
    w.normalizedPoints = w.points.map (fun p =>
      (p.1 - (g.bounds raw).minX, (g.bounds raw).maxY - p.2)) := by
  obtain ⟨iw, ow, _, _, rfl⟩ := mkWren_some_spec g raw w h
  rfl

/-- Witness for C7 (amended) at the square scenario. -/
theorem C7_normalized_amended_witness :
    wSq.normalizedPoints = wSq.points.map (fun p =>
      (p.1 - (gSq.bounds square).minX, (gSq.bounds square).maxY - p.2)) :=
  C7_normalized_amended gSq square wSq mkWren_gSq

/-- Counterexample to C7 as stated: with an offsetter (allowed by its
contract) whose zero-delta result is a translate of the input, the normalized
points are *not* obtained from the working polygon's bounding box. -/
theorem C7_normalized_counterexample :
    mkWren gShift square = some wShift ∧
    wShift.normalizedPoints ≠ wShift.points.map (fun p =>
      (p.1 - (gShift.bounds wShift.points).minX,
       (gShift.bounds wShift.points).maxY - p.2)) := by
  refine ⟨mkWren_gShift, ?_⟩
  obtain ⟨iw, ow, _, _, hw⟩ :=
    mkWren_some_spec gShift square wShift mkWren_gShift
  rw [hw]
  dsimp only
  rw [gShift_offset_zero]
  simp [gShift, gSq, listBounds, square]

/-- C3: for every edge produced by `calculateLines`, the inner, outer and
main sub-point lists have equal length, and the number of blocks is
`max(subPoints.length - 1, 0)` (stated over ℤ, as the source counts in
ordinary numbers). -/
theorem C3_parallel_lengths (g : Geom) (pts : List Point) (l : Line)
    (h : l ∈ calculateLines g pts) :
    l.innerSubPoints.length = l.subPoints.length ∧
    l.outerSubPoints.length = l.subPoints.length ∧
    (l.blocks.length : ℤ) = max ((l.subPoints.length : ℤ) - 1) 0 := by
  rw [calculateLines] at h
  obtain ⟨pr, _, rfl⟩ := List.mem_map.mp h
  obtain ⟨h1, h2, h3⟩ := mkLine_lengths g pr
  refine ⟨h1, h2, ?_⟩
  omega

/-- Witness for C3 at the square's first edge. -/
theorem C3_parallel_lengths_witness :
    (mkLine gSq ((0, 0), (100, 0))).innerSubPoints.length
        = (mkLine gSq ((0, 0), (100, 0))).subPoints.length ∧
    (mkLine gSq ((0, 0), (100, 0))).outerSubPoints.length
        = (mkLine gSq ((0, 0), (100, 0))).subPoints.length ∧
    ((mkLine gSq ((0, 0), (100, 0))).blocks.length : ℤ)
        = max (((mkLine gSq ((0, 0), (100, 0))).subPoints.length : ℤ) - 1) 0 :=
  C3_parallel_lengths gSq square (mkLine gSq ((0, 0), (100, 0)))
    (by rw [calculateLines]
        exact List.mem_map.mpr ⟨((0, 0), (100, 0)), by decide, rfl⟩)

/-- C2: every edge's `subPoints` is a first half generated from the start
followed by the reversal of a second half generated identically from the end.
Both halves arise from one and the same parameter list (`subParams`), whose
entries are the distances-from-start of the first half and equally the
distances-from-end of the second half (by the `pointOnLine` contract), so the
two multisets of distances coincide; and every parameter stays strictly below
half the edge length, i.e. no sub-point is generated at or past the midpoint
from either direction. -/
theorem C2_symmetric_halves (g : Geom) (pts : List Point) (l : Line)
    (h : l ∈ calculateLines g pts) :
    ∃ (s e : Point) (params : List ℚ),
      (s, e) ∈ loopifyInPairs pts ∧ l = mkLine g (s, e) ∧
      l.subPoints = params.map (fun t => g.pointOnLine t s e)
        ++ (params.map (fun t => g.pointOnLine t e s)).reverse ∧
      ∀ t ∈ params, t < g.distance s e / 2 := by
  rw [calculateLines] at h
  obtain ⟨⟨s, e⟩, hmem, rfl⟩ := List.mem_map.mp h
  exact ⟨s, e, subParams pointDistance (g.distance s e / 2), hmem, rfl, rfl,
    subParams_mem_lt _ _⟩

/-- Witness for C2 at the square's second edge. -/
theorem C2_symmetric_halves_witness :
    ∃ (s e : Point) (params : List ℚ),
      (s, e) ∈ loopifyInPairs square ∧
      mkLine gSq ((100, 0), (100, 100)) = mkLine gSq (s, e) ∧
      (mkLine gSq ((100, 0), (100, 100))).subPoints
        = params.map (fun t => gSq.pointOnLine t s e)
          ++ (params.map (fun t => gSq.pointOnLine t e s)).reverse ∧
      ∀ t ∈ params, t < gSq.distance s e / 2 :=
  C2_symmetric_halves gSq square (mkLine gSq ((100, 0), (100, 100)))
    (by rw [calculateLines]
        exact List.mem_map.mpr ⟨((100, 0), (100, 100)), by decide, rfl⟩)

/-- C8: each edge's `Line` is computed from its own endpoint pair alone
(index for index), and an edge strictly shorter than twice `pointDistance`
yields empty `subPoints` and empty `blocks`. -/
theorem C8_short_edge (g : Geom) (pts : List Point) :
    (∀ i : ℕ, (calculateLines g pts).get? i
        = ((loopifyInPairs pts).get? i).map (mkLine g)) ∧
    ∀ s e : Point, g.distance s e < 2 * pointDistance →
      (mkLine g (s, e)).subPoints = [] ∧ (mkLine g (s, e)).blocks = [] := by
  refine ⟨fun i => calculateLines_get? g pts i, fun s e hlt => ?_⟩
  have hnil : subParams pointDistance (g.distance s e / 2) = [] :=
    subParams_nil _ _ (by rw [not_lt]; linarith)
  constructor
  · simp [mkLine, hnil]
  · simp [mkLine, hnil]

/-- Witness for C8: a triangle with a bottom edge of length 10 (< 30). -/
theorem C8_short_edge_witness :
    (mkLine gSq ((0, 0), (10, 0))).subPoints = [] ∧
    (mkLine gSq ((0, 0), (10, 0))).blocks = [] :=
  (C8_short_edge gSq [(0, 0), (10, 0), (0, 60)]).2 (0, 0) (10, 0)
    (by norm_num [gSq, taxiDistance, pointDistance])

/-- C9: `calculateFinPieces` reverses each line's `blocks` array in place, so
the constructed `Wren` exposes every edge's blocks in reverse of construction
order (`calculateCorners` leaves blocks untouched), while the reinforcers —
computed before the fin pieces — were aggregated from the original order. -/
theorem C9_blocks_reversed (g : Geom) (raw : List Point) (w : Wren)
    (h : mkWren g raw = some w) :
    w.lines.map (fun l => l.blocks)
      = ((wrenLines1 g raw).map (fun l => l.blocks)).map List.reverse ∧
    (wrenLines1 g raw).map (fun l => l.blocks)
      = (calculateLines g (g.offset raw 0)).map (fun l => l.blocks) ∧
    w.reinforcers = calculateReinforcers g (wrenLines1 g raw) := by
  obtain ⟨iw, ow, _, _, rfl⟩ := mkWren_some_spec g raw w h
  refine ⟨?_, ?_, rfl⟩
  · show ((calculateFinPieces g (wrenLines1 g raw)).2).map (fun l => l.blocks)
      = ((wrenLines1 g raw).map (fun l => l.blocks)).map List.reverse
    simp [calculateFinPieces, List.map_map]
  · rw [wrenLines1, calculateCorners]
    rw [List.map_map]
    exact range_map_getD (calculateLines g (g.offset raw 0)) dLine
      (fun l => l.blocks)

/-- Witness for C9 at the square scenario. -/
theorem C9_blocks_reversed_witness :
    wSq.lines.map (fun l => l.blocks)
      = ((wrenLines1 gSq square).map (fun l => l.blocks)).map List.reverse ∧
    (wrenLines1 gSq square).map (fun l => l.blocks)
      = (calculateLines gSq (gSq.offset square 0)).map (fun l => l.blocks) ∧
    wSq.reinforcers = calculateReinforcers gSq (wrenLines1 gSq square) :=
  C9_blocks_reversed gSq square wSq mkWren_gSq

/-- C10: `calculateWalls` visits every index of the offset-point sequence and
reads `this.lines[i].angle` unguarded: it is well-defined exactly when the
sequence has at most as many points as there are lines, and consequently the
whole construction succeeds exactly when both offset polygons have at most as
many points as the working polygon (whose point count is the line count). -/
theorem C10_wall_bounds (g : Geom) (lines : List Line) (pts : List Point)
    (d : ℚ) (raw : List Point) :
    ((calculateWalls g lines pts d).isSome ↔ pts.length ≤ lines.length) ∧
    ((mkWren g raw).isSome ↔
      (g.offset raw (-finWidth)).length ≤ (g.offset raw 0).length ∧
      (g.offset raw finWidth).length ≤ (g.offset raw 0).length) :=
  ⟨calculateWalls_isSome_iff g lines pts d, mkWren_isSome_iff g raw⟩

theorem loopifyInPairs_length (l : List Point) :
    (loopifyInPairs l).length = l.length := by
  simp [loopifyInPairs]

/-- An in-range element of `calculateLines` is `mkLine` of the matching
cyclic pair. -/
theorem calculateLines_getD (g : Geom) (pts : List Point) (i : ℕ)
    (h : i < pts.length) :
    (calculateLines g pts).getD i dLine
      = mkLine g ((loopifyInPairs pts).getD i (dPoint, dPoint)) := by
  have h2 : i < (loopifyInPairs pts).length := by
    rw [loopifyInPairs_length]; exact h
  rw [calculateLines, List.getD_eq_getElem?_getD, List.getElem?_map,
    List.getElem?_eq_getElem h2, List.getD_eq_getElem?_getD,
    List.getElem?_eq_getElem h2]
  rfl

/-- The final lines also all carry corners. -/
theorem wrenLines2_corner_isSome (g : Geom) (raw : List Point) :
    ∀ l ∈ wrenLines2 g raw, l.corner.isSome := by
  intro l hl
  rw [wrenLines2, calculateFinPieces] at hl
  obtain ⟨l1, hl1, rfl⟩ := List.mem_map.mp hl
  exact wrenLines1_corner_isSome g raw l1 hl1

/-- C4: for every edge `i` and its cyclic successor `i+1`, the corner of
edge `i` is built from exactly these six points in this order: the last
outer sub-point of edge `i`, the outer-offset point at index `i+1`, the
first outer sub-point of edge `i+1`, the first inner sub-point of edge
`i+1`, the inner-offset point at index `i+1`, and the last inner sub-point
of edge `i`; and after corner construction every edge has exactly one
corner. -/
theorem C4_corner_points (g : Geom) (raw : List Point) (w : Wren)
    (h : mkWren g raw = some w) (i : ℕ) (li lnext : Line)
    (hli : w.lines.get? i = some li)
    (hlnext : w.lines.get? (safeIndex w.lines.length (i + 1)) = some lnext) :
    li.corner = some
      { lastOuterPrev := li.outerSubPoints.getLast?,
        outerVertex := w.outerPoints.get? (safeIndex w.lines.length (i + 1)),
        firstOuterNext := lnext.outerSubPoints.head?,
        firstInnerNext := lnext.innerSubPoints.head?,
        innerVertex := w.innerPoints.get? (safeIndex w.lines.length (i + 1)),
        lastInnerPrev := li.innerSubPoints.getLast? } ∧
    ∀ l ∈ w.lines, l.corner.isSome := by
  obtain ⟨iw, ow, hA, hB, rfl⟩ := mkWren_some_spec g raw w h
  dsimp only at hli hlnext ⊢
  refine ⟨?_, wrenLines2_corner_isSome g raw⟩
  have hn2 : (wrenLines2 g raw).length = (g.offset raw 0).length :=
    wrenLines2_length g raw
  have hn0 : (calculateLines g (g.offset raw 0)).length
      = (g.offset raw 0).length := calculateLines_length g (g.offset raw 0)
  obtain ⟨hi2, -⟩ := List.get?_eq_some.mp hli
  have hi : i < (g.offset raw 0).length := hn2 ▸ hi2
  have hi0 : i < (calculateLines g (g.offset raw 0)).length := by omega
  -- the successor index is the same whether taken modulo the final line
  -- count or modulo the constructed line count
  have hsame : safeIndex (wrenLines2 g raw).length (i + 1)
      = safeIndex (calculateLines g (g.offset raw 0)).length (i + 1) := by
    rw [hn2, hn0]
  rw [hsame] at hlnext ⊢
  have hnextlt : safeIndex (calculateLines g (g.offset raw 0)).length (i + 1)
      < (calculateLines g (g.offset raw 0)).length := by
    rw [safeIndex]
    exact Nat.mod_lt _ (by omega)
  -- unfold the two line reads down to `calculateLines` elements
  rw [wrenLines2, calculateFinPieces_snd_get?, wrenLines1,
    calculateCorners_get? _ _ _ _ hi0, Option.map_some'] at hli
  rw [wrenLines2, calculateFinPieces_snd_get?, wrenLines1,
    calculateCorners_get? _ _ _ _ hnextlt, Option.map_some'] at hlnext
  have hli' := (Option.some.inj hli).symm
  have hlnext' := (Option.some.inj hlnext).symm
  -- the fin-piece pass left the corner and the sub-point lists untouched
  have e1 : li.outerSubPoints
      = ((calculateLines g (g.offset raw 0)).getD i dLine).outerSubPoints := by
    rw [hli']
  have e2 : li.innerSubPoints
      = ((calculateLines g (g.offset raw 0)).getD i dLine).innerSubPoints := by
    rw [hli']
  have e3 : li.corner = some (mkCorner (g.offset raw finWidth)
      (g.offset raw (-finWidth))
      ((calculateLines g (g.offset raw 0)).getD i dLine)
      ((calculateLines g (g.offset raw 0)).getD
        (safeIndex (calculateLines g (g.offset raw 0)).length (i + 1)) dLine)
      (safeIndex (calculateLines g (g.offset raw 0)).length (i + 1))) := by
    rw [hli']
  have e4 : lnext.outerSubPoints
      = ((calculateLines g (g.offset raw 0)).getD
          (safeIndex (calculateLines g (g.offset raw 0)).length (i + 1))
          dLine).outerSubPoints := by
    rw [hlnext']
  have e5 : lnext.innerSubPoints
      = ((calculateLines g (g.offset raw 0)).getD
          (safeIndex (calculateLines g (g.offset raw 0)).length (i + 1))
          dLine).innerSubPoints := by
    rw [hlnext']
  -- lengths of the previous line's parallel sub-point lists agree
  have hmem : (calculateLines g (g.offset raw 0)).getD i dLine
      = mkLine g ((loopifyInPairs (g.offset raw 0)).getD i (dPoint, dPoint)) :=
    calculateLines_getD g (g.offset raw 0) i hi
  have hio : ((calculateLines g (g.offset raw 0)).getD i dLine).innerSubPoints.length
      = ((calculateLines g (g.offset raw 0)).getD i dLine).outerSubPoints.length := by
    rw [hmem, (mkLine_lengths g _).1, (mkLine_lengths g _).2.1]
  rw [e3, e1, e2, e4, e5, mkCorner]
  rw [List.getLast?_eq_getElem?, List.getLast?_eq_getElem?,
    List.head?_eq_getElem?, List.head?_eq_getElem?]
  simp only [List.get?_eq_getElem?]
  rw [hio]

/-- Witness for C4 at the square scenario, edge `0`. -/
theorem C4_corner_points_witness :
    wSq.lines.get? 0 = some (wSq.lines.getD 0 dLine) ∧
    ((wSq.lines.getD 0 dLine).corner = some
      { lastOuterPrev := (wSq.lines.getD 0 dLine).outerSubPoints.getLast?,
        outerVertex := wSq.outerPoints.get? (safeIndex wSq.lines.length 1),
        firstOuterNext :=
          (wSq.lines.getD (safeIndex wSq.lines.length 1) dLine).outerSubPoints.head?,
        firstInnerNext :=
          (wSq.lines.getD (safeIndex wSq.lines.length 1) dLine).innerSubPoints.head?,
        innerVertex := wSq.innerPoints.get? (safeIndex wSq.lines.length 1),
        lastInnerPrev := (wSq.lines.getD 0 dLine).innerSubPoints.getLast? } ∧
      ∀ l ∈ wSq.lines, l.corner.isSome) := by
  have h0 : (0 : ℕ) < wSq.lines.length := by rw [wSq_lines_length]; omega
  have hnext : safeIndex wSq.lines.length 1 < wSq.lines.length := by
    rw [safeIndex]
    exact Nat.mod_lt _ (by omega)
  have hli : wSq.lines.get? 0 = some (wSq.lines.getD 0 dLine) := by
    rw [List.get?_eq_getElem?, List.getD_eq_getElem?_getD,
      List.getElem?_eq_getElem h0]
    rfl
  have hlnext : wSq.lines.get? (safeIndex wSq.lines.length 1)
      = some (wSq.lines.getD (safeIndex wSq.lines.length 1) dLine) := by
    rw [List.get?_eq_getElem?, List.getD_eq_getElem?_getD,
      List.getElem?_eq_getElem hnext]
    rfl
  exact ⟨hli, C4_corner_points gSq square wSq mkWren_gSq 0 _ _ hli hlnext⟩

/-- C5: for every edge `i` and its cyclic successor `i+1`, the reinforcer
loop at index `i` is the concatenation of the outer-point sequences of the
tile group [last two blocks of edge `i`, corner of edge `i`, first two
blocks of edge `i+1`], in group order, followed by the inner-point sequences
of the same tiles in reverse group order.  Edges are taken in their
construction-order state `wrenLines1` (the state of `this.lines` when
`calculateReinforcers` runs). -/
theorem C5_reinforcer_group (g : Geom) (raw : List Point) (w : Wren)
    (h : mkWren g raw = some w) (i : ℕ)
    (hi : i < (wrenLines1 g raw).length) :
    ∃ c : Corner,
      ((wrenLines1 g raw).getD i dLine).corner = some c ∧
      w.reinforcers.get? i = some (
        ((((wrenLines1 g raw).getD i dLine).blocks.drop
              (((wrenLines1 g raw).getD i dLine).blocks.length - 2)).map Tile.block
            ++ [Tile.corner c]
            ++ (((wrenLines1 g raw).getD
                  (safeIndex (wrenLines1 g raw).length (i + 1)) dLine).blocks.take 2).map
                Tile.block).flatMap (tileOuter g)
        ++ ((((wrenLines1 g raw).getD i dLine).blocks.drop
              (((wrenLines1 g raw).getD i dLine).blocks.length - 2)).map Tile.block
            ++ [Tile.corner c]
            ++ (((wrenLines1 g raw).getD
                  (safeIndex (wrenLines1 g raw).length (i + 1)) dLine).blocks.take 2).map
                Tile.block).reverse.flatMap (tileInner g)) := by
  obtain ⟨iw, ow, hA, hB, rfl⟩ := mkWren_some_spec g raw w h
  dsimp only
  have hmem : (wrenLines1 g raw).getD i dLine ∈ wrenLines1 g raw := by
    rw [List.getD_eq_getElem?_getD, List.getElem?_eq_getElem hi]
    exact List.getElem_mem hi
  obtain ⟨c, hc⟩ :=
    Option.isSome_iff_exists.mp (wrenLines1_corner_isSome g raw _ hmem)
  refine ⟨c, hc, ?_⟩
  rw [calculateReinforcers_get? g _ i hi]
  have ht : reinforcerTiles (wrenLines1 g raw) i
      = (((wrenLines1 g raw).getD i dLine).blocks.drop
            (((wrenLines1 g raw).getD i dLine).blocks.length - 2)).map Tile.block
          ++ [Tile.corner c]
          ++ (((wrenLines1 g raw).getD
                (safeIndex (wrenLines1 g raw).length (i + 1)) dLine).blocks.take 2).map
              Tile.block := by
    rw [reinforcerTiles]
    rw [List.append_assoc, List.append_assoc]
    congr 2
    rw [cornerTile.eq_def, hc]
  rw [ht]

/-- Witness for C5 at the square scenario, edge `0`. -/
theorem C5_reinforcer_group_witness :
    ∃ c : Corner,
      ((wrenLines1 gSq square).getD 0 dLine).corner = some c ∧
      wSq.reinforcers.get? 0 = some (
        ((((wrenLines1 gSq square).getD 0 dLine).blocks.drop
              (((wrenLines1 gSq square).getD 0 dLine).blocks.length - 2)).map Tile.block
            ++ [Tile.corner c]
            ++ (((wrenLines1 gSq square).getD
                  (safeIndex (wrenLines1 gSq square).length 1) dLine).blocks.take 2).map
                Tile.block).flatMap (tileOuter gSq)
        ++ ((((wrenLines1 gSq square).getD 0 dLine).blocks.drop
              (((wrenLines1 gSq square).getD 0 dLine).blocks.length - 2)).map Tile.block
            ++ [Tile.corner c]
            ++ (((wrenLines1 gSq square).getD
                  (safeIndex (wrenLines1 gSq square).length 1) dLine).blocks.take 2).map
                Tile.block).reverse.flatMap (tileInner gSq)) :=
  C5_reinforcer_group gSq square wSq mkWren_gSq 0
    (by rw [wrenLines1_length]; decide)

/-- A successful `calculateWalls` yields one wall loop per offset point. -/
theorem calculateWalls_length (g : Geom) (lines : List Line)
    (pts : List Point) (d : ℚ) (ws : List (List Point))
    (h : calculateWalls g lines pts d = some ws) : ws.length = pts.length := by
  rw [calculateWalls] at h
  simpa using wallsAux_length g lines pts d (List.range pts.length) ws h

/-- The first edge of the square scenario, concretely. -/
theorem wSq_line0 : wSq.lines.getD 0 dLine
    = { mkLine gSq ((0, 0), (100, 0)) with
          corner := some (mkCorner (gSq.offset square finWidth)
            (gSq.offset square (-finWidth))
            ((calculateLines gSq (gSq.offset square 0)).getD 0 dLine)
            ((calculateLines gSq (gSq.offset square 0)).getD
              (safeIndex (calculateLines gSq (gSq.offset square 0)).length 1)
              dLine)
            (safeIndex (calculateLines gSq (gSq.offset square 0)).length 1)),
          blocks := (mkLine gSq ((0, 0), (100, 0))).blocks.reverse } := by
  have hW : wSq.lines = wrenLines2 gSq square := by
    obtain ⟨iw, ow, -, -, hw⟩ := mkWren_some_spec gSq square wSq mkWren_gSq
    rw [hw]
  have h0 : (0 : ℕ) < (calculateLines gSq (gSq.offset square 0)).length := by
    rw [calculateLines_length]
    decide
  have hget : (wrenLines2 gSq square).get? 0
      = some { mkLine gSq ((0, 0), (100, 0)) with
            corner := some (mkCorner (gSq.offset square finWidth)
              (gSq.offset square (-finWidth))
              ((calculateLines gSq (gSq.offset square 0)).getD 0 dLine)
              ((calculateLines gSq (gSq.offset square 0)).getD
                (safeIndex (calculateLines gSq (gSq.offset square 0)).length 1)
                dLine)
              (safeIndex (calculateLines gSq (gSq.offset square 0)).length 1)),
            blocks := (mkLine gSq ((0, 0), (100, 0))).blocks.reverse } := by
    rw [wrenLines2, calculateFinPieces_snd_get?, wrenLines1,
      calculateCorners_get? _ _ _ _ h0, Option.map_some']
    have hpair : (calculateLines gSq (gSq.offset square 0)).getD 0 dLine
        = mkLine gSq ((0, 0), (100, 0)) := by
      rw [calculateLines_getD gSq _ 0 (by decide)]
      rfl
    rw [hpair]
  rw [hW, List.getD_eq_getElem?_getD, ← List.get?_eq_getElem?, hget]
  rfl

/-- Counterexample to C1 as stated: on the square, the sub-point loop steps
by `pointDistance * 2 = 30`, so a half-edge of 50 gets 2 sub-points (at 15
and 45), not `floor(50/15) = 3`; each edge therefore has 4 sub-points, not
6. -/
theorem C1_counterexample :
    mkWren gSq square = some wSq ∧
    (wSq.lines.getD 0 dLine).length = 100 ∧
    (subParams pointDistance ((wSq.lines.getD 0 dLine).length / 2)).length
      = 2 ∧
    (wSq.lines.getD 0 dLine).subPoints.length = 4 ∧
    (2 : ℕ) ≠ 3 ∧ (4 : ℕ) ≠ 6 := by
  have hlen : (wSq.lines.getD 0 dLine).length = 100 := by
    rw [wSq_line0]
    show (mkLine gSq ((0, 0), (100, 0))).length = 100
    norm_num [mkLine, gSq, taxiDistance]
  refine ⟨mkWren_gSq, hlen, ?_, ?_, by norm_num, by norm_num⟩
  · rw [hlen]
    norm_num [subParams_50]
  · rw [wSq_line0]
    show (mkLine gSq ((0, 0), (100, 0))).subPoints.length = 4
    rw [mkLine_subPoints_length]
    have : gSq.distance (0, 0) (100, 0) = 100 := by
      norm_num [gSq, taxiDistance]
    rw [show ((0 : ℚ), (0 : ℚ)) = ((0, 0), ((100 : ℚ), (0 : ℚ))).1 from rfl] at this
    norm_num [gSq, taxiDistance, subParams_50]

/-- C1 (amended): for the square with any collaborator bundle that offsets
it to itself at delta 0, measures each of its edges at 100, and returns
4-point offset polygons at delta `±finWidth`, the constructor produces 4
edges, each edge's sub-point loop generating 2 points per half before
mirroring (the loop starts at `pointDistance` and advances by
`pointDistance * 2 = 30`, so a half-length of 50 admits 15 and 45 only),
hence 4 sub-points per edge; 4 corners (one per edge), 4 reinforcer loops,
4 fin-piece loops, and inner and outer wall sequences of length 4 each. -/
theorem C1_square_scenario (g : Geom)
    (h0 : g.offset square 0 = square)
    (hd : ∀ pr ∈ loopifyInPairs square, g.distance pr.1 pr.2 = 100)
    (hOut : (g.offset square finWidth).length = 4)
    (hInn : (g.offset square (-finWidth)).length = 4) :
    ∃ w, mkWren g square = some w ∧
      w.lines.length = 4 ∧
      (∀ l ∈ w.lines,
        (subParams pointDistance (l.length / 2)).length = 2 ∧
        l.subPoints.length = 4 ∧
        l.corner.isSome) ∧
      w.reinforcers.length = 4 ∧
      w.finPieces.length = 4 ∧
      w.innerWalls.length = 4 ∧
      w.outerWalls.length = 4 := by
  have hn : (g.offset square 0).length = 4 := by rw [h0]; rfl
  have hsome : (mkWren g square).isSome :=
    (mkWren_isSome_iff g square).mpr (by rw [hInn, hOut, hn]; omega)
  obtain ⟨w, hw⟩ := Option.isSome_iff_exists.mp hsome
  obtain ⟨iw, ow, hA, hB, rfl⟩ := mkWren_some_spec g square w hw
  refine ⟨_, hw, ?_, ?_, ?_, ?_, ?_, ?_⟩
  · show (wrenLines2 g square).length = 4
    rw [wrenLines2_length, hn]
  · intro l hl
    have hl2 : l ∈ wrenLines2 g square := hl
    rw [wrenLines2, calculateFinPieces] at hl2
    obtain ⟨l1, hl1, rfl⟩ := List.mem_map.mp hl2
    rw [wrenLines1, calculateCorners] at hl1
    obtain ⟨i, hi, rfl⟩ := List.mem_map.mp hl1
    have hiN : i < (calculateLines g (g.offset square 0)).length :=
      List.mem_range.mp hi
    have hiP : i < (g.offset square 0).length := by
      rwa [calculateLines_length] at hiN
    have hline : (calculateLines g (g.offset square 0)).getD i dLine
        = mkLine g ((loopifyInPairs (g.offset square 0)).getD i
            (dPoint, dPoint)) :=
      calculateLines_getD g _ i hiP
    have hprmem : (loopifyInPairs (g.offset square 0)).getD i (dPoint, dPoint)
        ∈ loopifyInPairs square := by
      rw [h0] at hiP ⊢
      rw [List.getD_eq_getElem?_getD,
        List.getElem?_eq_getElem (by rwa [loopifyInPairs_length])]
      exact List.getElem_mem _
    have hdist : g.distance
        ((loopifyInPairs (g.offset square 0)).getD i (dPoint, dPoint)).1
        ((loopifyInPairs (g.offset square 0)).getD i (dPoint, dPoint)).2
        = 100 := hd _ hprmem
    have hlf : (mkLine g ((loopifyInPairs (g.offset square 0)).getD i
        (dPoint, dPoint))).length = 100 := hdist
    refine ⟨?_, ?_, rfl⟩
    · show (subParams pointDistance
        (((calculateLines g (g.offset square 0)).getD i dLine).length / 2)).length = 2
      rw [hline, hlf]
      norm_num [subParams_50]
    · show ((calculateLines g (g.offset square 0)).getD i dLine).subPoints.length = 4
      rw [hline, mkLine_subPoints_length, hdist]
      norm_num [subParams_50]
  · show (calculateReinforcers g (wrenLines1 g square)).length = 4
    rw [calculateReinforcers, List.length_map, List.length_range,
      wrenLines1_length, hn]
  · show ((calculateFinPieces g (wrenLines1 g square)).1).length = 4
    rw [calculateFinPieces, List.length_map, wrenLines1_length, hn]
  · show iw.length = 4
    rw [calculateWalls_length g _ _ _ iw hA, hInn]
  · show ow.length = 4
    rw [calculateWalls_length g _ _ _ ow hB, hOut]

/-- Witness for C1 (amended): the concrete bundle `gSq` satisfies all the
scenario hypotheses. -/
theorem C1_square_scenario_witness :
    ∃ w, mkWren gSq square = some w ∧
      w.lines.length = 4 ∧
      (∀ l ∈ w.lines,
        (subParams pointDistance (l.length / 2)).length = 2 ∧
        l.subPoints.length = 4 ∧
        l.corner.isSome) ∧
      w.reinforcers.length = 4 ∧
      w.finPieces.length = 4 ∧
      w.innerWalls.length = 4 ∧
      w.outerWalls.length = 4 :=
  C1_square_scenario gSq rfl
    (by
      intro pr hpr
      have hlp : loopifyInPairs square
          = [((0, 0), (100, 0)), ((100, 0), (100, 100)),
             ((100, 100), (0, 100)), ((0, 100), (0, 0))] := rfl
      rw [hlp] at hpr
      simp only [List.mem_cons, List.not_mem_nil, or_false] at hpr
      rcases hpr with rfl | rfl | rfl | rfl <;>
        norm_num [gSq, taxiDistance])
    rfl rfl

end Schematic
